import Mathlib

/-!
Shallow embedding of the `hika` move-generation engine (the current
source snapshot, `src/unnamed/part_001`) and proofs about it.

Modelling conventions, stated once here:

* JavaScript numbers that the engine actually manipulates are integers
  (board sizes, coordinates, teams, flags), so they are embedded as `Int`.
  The `isNaN` coercion in the `Vec` constructor is reached only from
  string parsing, where a failed `parseInt` is modelled as `Option.none`
  and coerced to `0` exactly like `NaN` is in the source.
* A mutable `Game` object is embedded as a `GameState` record; every
  method that can mutate or throw is a function
  `GameState → Except String α × GameState`, so that the state at the
  moment an exception escapes is observable, exactly as it is on the
  live JS object.
* JS object identity matters in exactly one place: `putsKingInCheck`
  restores `this.pois` from a shallow copy whose entries still reference
  the piece objects mutated by the simulated `move` (which reassigns
  `piece.flags`), while `this.layout` is restored from a deep JSON clone.
  Each occupancy-index entry therefore carries a ghost boolean `aliased`
  recording whether its piece object is the very object stored in the
  board cell at its position.  The ghost field is set exactly where the
  source creates that sharing (the constructor and `setPiecePoi`, which
  always store the same object into the cell and the entry) and cleared
  exactly where the source breaks it (the snapshot restore, which
  replaces every board cell by a fresh clone).
* The rule-tree interpreter `evaluatePath` recurses through the rule
  dictionary by piece-type name; the source bounds that recursion only
  by its self-reference guard and diverges on cyclic dictionaries.  The
  embedding takes explicit fuel for dictionary dereferences and returns
  an error when the fuel runs out; every theorem below supplies enough
  fuel for the dictionaries it uses, so the fuel path is never taken on
  inputs where the source terminates.
* A sliding leaf (`repeat: Infinity`) walks until a break; on a board of
  size `s` a walk with a nonzero direction leaves the board after at
  most `max(s.x,s.y,s.z,s.w)` in-bounds steps, so the embedding walks
  `s.x+s.y+s.z+s.w+1` steps, which is exact on every input on which the
  source loop terminates (a zero direction from an occupied origin
  breaks at the first step; a zero direction from an empty origin makes
  the source spin forever and is unreachable through the API, which
  only evaluates paths for a piece actually standing on its origin).
-/

namespace Hika

/-- 4-component integer vector, from `class Vec` (part_001 lines 9-91).
`NaN` inputs are handled at the parsing boundary (`jsParseInt`). -/
structure Vec where
  x : Int
  y : Int
  z : Int
  w : Int
deriving DecidableEq, Repr

/-- `new Vec(x, y, z, w)` with defaulted components. -/
def Vec.make (x y z w : Int) : Vec := ⟨x, y, z, w⟩

/-- `Vec.add` from the source. -/
def Vec.add (a b : Vec) : Vec := ⟨a.x + b.x, a.y + b.y, a.z + b.z, a.w + b.w⟩

/-- `Vec.serialize`: the string `x,y,z,w`, used as the move-cache key. -/
def Vec.serializeV (v : Vec) : String :=
  toString v.x ++ "," ++ toString v.y ++ "," ++ toString v.z ++ "," ++ toString v.w

/-- `Piece` record: type id, team, mutable flag list (part_001 lines 93-97). -/
structure Piece where
  id : String
  team : Int
  flags : List Int
deriving DecidableEq, Repr

/-- One movement precondition, from `type Condition` (part_001 lines 99-105). -/
structure Condition where
  inverted : Bool := false
  team : Option Int := none
  flag : Option Int := none
  piece : Option Vec := none
  enemy : Option Vec := none
deriving DecidableEq, Repr

/-- A path-node repeat bound: a finite JS number or `Infinity`. -/
inductive RepCount where
  | fin (n : Int)
  | inf
deriving DecidableEq, Repr

/-- A rule-tree node, from `type Path` (part_001 lines 107-113).  The
`repeat` field is called `rep` because `repeat` is a Lean keyword; a
branch is either a piece-type name (`String`) or a nested node. -/
inductive Path : Type where
  | mk : (rep : Option RepCount) → (condition : Option (List Condition)) →
      (attack : Option Int) → (direction : Option Vec) →
      (branches : Option (List (String ⊕ Path))) → Path

/-- The `repeat` field of a path node. -/
def Path.rep : Path → Option RepCount
  | .mk r _ _ _ _ => r

/-- The `condition` field of a path node. -/
def Path.condition : Path → Option (List Condition)
  | .mk _ c _ _ _ => c

/-- The `attack` field of a path node. -/
def Path.attack : Path → Option Int
  | .mk _ _ a _ _ => a

/-- The `direction` field of a path node. -/
def Path.direction : Path → Option Vec
  | .mk _ _ _ d _ => d

/-- The `branches` field of a path node. -/
def Path.branches : Path → Option (List (String ⊕ Path))
  | .mk _ _ _ _ b => b

/-- `type PieceRule`: the list of root path alternatives for one piece type. -/
structure PieceRule where
  pathTree : List Path

/-- `class Move` (part_001 lines 126-166): source, destination, optional
waypoints (never set by generation). -/
structure Move where
  src : Vec
  dst : Vec
  int : Option (List Vec) := none
deriving DecidableEq, Repr

/-- `new Move(src, dst)`. -/
def Move.make (src dst : Vec) : Move := ⟨src, dst, none⟩

/-- An occupancy-index entry (`PieceVec`), plus the ghost `aliased` bit
described in the module header: `aliased = true` records that the JS
entry's `piece` reference is the very object stored in the board cell at
`pos`, which is how the flag mutation inside a simulated `move` becomes
visible through the restored index. -/
structure PoiEntry where
  piece : Piece
  pos : Vec
  aliased : Bool
deriving DecidableEq, Repr

/-- The dense 4-nested board array, indexed `layout[w][z][y][x]`. -/
abbrev Layout := List (List (List (List (Option Piece))))

/-- The rule dictionary, an insertion-ordered association list mirroring
the JS `Map<string, PieceRule>`. -/
abbrev Dict := List (String × PieceRule)

/-- The whole mutable state of a `Game` object (part_001 lines 178-184). -/
structure GameState where
  size : Vec
  layout : Layout
  pois : List PoiEntry
  pieceDict : Dict
  cache : List (String × List Move)

/-- Decidable equality for `Except`, used to evaluate the concrete
theorems below by `decide`. -/
instance {e : Type u} {a : Type v} [DecidableEq e] [DecidableEq a] :
    DecidableEq (Except e a) := fun x y =>
  match x, y with
  | .ok v, .ok v' =>
      if h : v = v' then .isTrue (by rw [h]) else .isFalse (by intro c; cases c; exact h rfl)
  | .error v, .error v' =>
      if h : v = v' then .isTrue (by rw [h]) else .isFalse (by intro c; cases c; exact h rfl)
  | .ok _, .error _ => .isFalse (by intro c; cases c)
  | .error _, .ok _ => .isFalse (by intro c; cases c)

/-- `Map.get`: first association for a key. -/
def lookupDict (d : Dict) (k : String) : Option PieceRule :=
  match d with
  | [] => none
  | (k', v) :: rest => if k' = k then some v else lookupDict rest k

/-- Cache lookup (`Map.get` on the move cache). -/
def lookupCache (c : List (String × List Move)) (k : String) : Option (List Move) :=
  match c with
  | [] => none
  | (k', v) :: rest => if k' = k then some v else lookupCache rest k

/-- `Map.set` on the move cache: replace the existing binding in place,
or append a new one. -/
def cacheSet (c : List (String × List Move)) (k : String) (v : List Move) :
    List (String × List Move) :=
  match c with
  | [] => [(k, v)]
  | (k', v') :: rest =>
      if k' = k then (k', v) :: rest else (k', v') :: cacheSet rest k v

/-- `new Map([...this.pieceDict, ...customPieceDict])`: a later binding
for an existing key overwrites the value but keeps the key's original
position; genuinely new keys are appended in order. -/
def mergeDict (base extra : Dict) : Dict :=
  match extra with
  | [] => base
  | (k, v) :: rest =>
      if (lookupDict base k).isSome then
        mergeDict (base.map fun kv => if kv.1 = k then (k, v) else kv) rest
      else
        mergeDict (base ++ [(k, v)]) rest

/-- `isInBounds` (part_001 lines 522-533). -/
def isInBounds (size pos : Vec) : Bool :=
  0 ≤ pos.x && pos.x < size.x && 0 ≤ pos.y && pos.y < size.y &&
  0 ≤ pos.z && pos.z < size.z && 0 ≤ pos.w && pos.w < size.w

/-- Raw cell read `this.layout[pos.w][pos.z][pos.y][pos.x]`; total
because every call site has already checked `isInBounds`, and a
constructed game's layout dimensions match its size. -/
def cellAt (layout : Layout) (pos : Vec) : Option Piece :=
  (((layout.getD pos.w.toNat []).getD pos.z.toNat []).getD pos.y.toNat []).getD
    pos.x.toNat none

/-- Write a cell: `this.layout[pos.w][pos.z][pos.y][pos.x] = piece`. -/
def setCell (layout : Layout) (pos : Vec) (p : Option Piece) : Layout :=
  let wl := layout.getD pos.w.toNat []
  let zl := wl.getD pos.z.toNat []
  let yl := zl.getD pos.y.toNat []
  layout.set pos.w.toNat (wl.set pos.z.toNat (zl.set pos.y.toNat (yl.set pos.x.toNat p)))

/-- The out-of-bounds error message thrown by `getPiece`. -/
def oobMsg : String := "Cannot access out of bounds position"

/-- `MissingRuleError` message thrown by `getMoves` (part_001 lines 619-622). -/
def missingRuleMsg (id : String) : String :=
  "Piece dictionary does not contain piece type " ++ id

/-- `getPiece` (part_001 lines 541-545): occupant or `none`, or the
out-of-bounds error. -/
def getPieceE (size : Vec) (layout : Layout) (pos : Vec) : Except String (Option Piece) :=
  if isInBounds size pos then .ok (cellAt layout pos) else .error oobMsg

/-- `setPieceLayout` (part_001 lines 547-551): read the old occupant via
`getPiece` (which may throw), then overwrite the cell. -/
def setPieceLayoutE (g : GameState) (pos : Vec) (p : Option Piece) :
    Except String (Option Piece) × GameState :=
  match getPieceE g.size g.layout pos with
  | .error e => (.error e, g)
  | .ok target => (.ok target, { g with layout := setCell g.layout pos p })

/-- The index-removal loop shared by `setPiecePoi` and `removePoi`
(part_001 lines 553-563 and 580-589): `splice(i, 1)` inside a forward
`for` loop without decrementing `i`, so the element immediately after a
removed entry is skipped and survives even if its position also matches. -/
def spliceLoop (pos : Vec) : List PoiEntry → List PoiEntry
  | [] => []
  | [e] => if e.pos = pos then [] else [e]
  | e :: f :: rest =>
      if e.pos = pos then f :: spliceLoop pos rest
      else e :: spliceLoop pos (f :: rest)

/-- `setPiecePoi` (part_001 lines 553-563) acting on the entry list:
remove entries at `pos` (with the skip behaviour of `spliceLoop`), then,
for a non-null piece, push a fresh entry.  The pushed entry is `aliased`
because both call sites (`move`) have just stored the same piece object
into the board cell at `pos`. -/
def setPiecePoiList (l : List PoiEntry) (pos : Vec) (p : Option Piece) : List PoiEntry :=
  match p with
  | some piece => spliceLoop pos l ++ [⟨piece, pos, true⟩]
  | none => spliceLoop pos l

/-- `setPiece` (part_001 lines 572-578): clear the cache, overwrite the
cell, then update the index — for a non-null piece the source only calls
`removePoi(pos)` and never inserts the new entry; for `null` it calls
`setPiecePoi(pos, null)`, which also only removes. -/
def setPieceE (g : GameState) (pos : Vec) (p : Option Piece) :
    Except String (Option Piece) × GameState :=
  let g0 := { g with cache := [] }
  match setPieceLayoutE g0 pos p with
  | (.error e, g1) => (.error e, g1)
  | (.ok target, g1) =>
      match p with
      | some _ => (.ok target, { g1 with pois := spliceLoop pos g1.pois })
      | none => (.ok target, { g1 with pois := setPiecePoiList g1.pois pos none })

/-- `move` (part_001 lines 598-607): null the source cell, write the
piece to the destination cell, clear the whole flag list of the moved
piece if it carries flag 0 (the reassignment `piece.flags = []` mutates
the object already stored in the destination cell, hence the rewrite of
that cell here), then update the index.  `clearCache = false` is used by
the legality simulation. -/
def moveE (g : GameState) (mov : Move) (clearCache : Bool) :
    Except String (Option Piece) × GameState :=
  let g0 := if clearCache then { g with cache := [] } else g
  match setPieceLayoutE g0 mov.src none with
  | (.error e, g1) => (.error e, g1)
  | (.ok piece, g1) =>
      match setPieceLayoutE g1 mov.dst piece with
      | (.error e, g2) => (.error e, g2)
      | (.ok target, g2) =>
          match piece with
          | some p =>
              let p' := if p.flags.contains 0 then { p with flags := [] } else p
              let g3 := { g2 with layout := setCell g2.layout mov.dst (some p') }
              let g4 := { g3 with pois := setPiecePoiList g3.pois mov.dst (some p') }
              (.ok target, { g4 with pois := spliceLoop mov.src g4.pois })
          | none =>
              let g4 := { g2 with pois := setPiecePoiList g2.pois mov.dst none }
              (.ok target, { g4 with pois := spliceLoop mov.src g4.pois })

/-- `String.split` on a single-character separator (all separators the
constructor uses are single characters), written on character lists so
that it evaluates inside the kernel; `""` splits to `[""]`, like in JS. -/
def splitChars (sep : Char) : List Char → List (List Char)
  | [] => [[]]
  | c :: cs =>
      if c = sep then [] :: splitChars sep cs
      else
        match splitChars sep cs with
        | [] => [[c]]
        | h :: t => (c :: h) :: t

/-- `String.split` wrapper producing strings. -/
def splitStr (sep : Char) (s : String) : List String :=
  (splitChars sep s.data).map String.mk

/-- JS `parseInt` restricted to the inputs the constructor feeds it:
the value of a leading run of decimal digits, or `none` (`NaN`) when the
string does not start with a digit. -/
def jsParseInt (s : String) : Option Int :=
  let digits := s.data.takeWhile Char.isDigit
  if digits.isEmpty then none
  else some (digits.foldl (fun acc c => acc * 10 + (c.toNat - 48)) (0 : Nat) : Nat)

/-- `NaN`-to-`0` coercion performed by the `Vec` constructor. -/
def orZero : Option Int → Int
  | some n => n
  | none => 0

/-- Piece creation for a layout character (part_001 lines 229-243):
uppercase id, team 0 for uppercase input, initial flags `[0]` for pawns
and `[1, 2]` for kings. -/
def mkLayoutPiece (c : Char) : Piece :=
  let idC := c.toUpper
  let id := String.mk [idC]
  { id := id
    team := if c = idC then 0 else 1
    flags := if id = "P" then [0] else if id = "K" then [1, 2] else [] }

/-- The inner `x` loop of the constructor (part_001 lines 213-244): walk
the row's characters while the row is not yet full; a missing character
pushes `null`; a digit `1`-`9` pushes that many `null`s (capped by the
remaining width); any other character (including `0`, for which
`if (skip)` is false) pushes a piece. -/
def buildRow (cap : Nat) : List Char → List (Option Piece)
  | [] => List.replicate cap none
  | c :: cs =>
      match cap with
      | 0 => []
      | n + 1 =>
          match jsParseInt (String.mk [c]) with
          | some k =>
              if k ≥ 1 then
                let pad := min k.toNat (n + 1)
                List.replicate pad none ++ buildRow (n + 1 - pad) cs
              else some (mkLayoutPiece c) :: buildRow n cs
          | none => some (mkLayoutPiece c) :: buildRow n cs

/-- The `y` loop: one row per `y` until the plane is full; a missing row
string behaves like an empty character list. -/
def buildPlane (ycap xcap : Nat) (rows : List String) : List (List (Option Piece)) :=
  (List.range ycap).map fun y => buildRow xcap (rows.getD y "").data

/-- The `z` loop. -/
def buildZ (zcap ycap xcap : Nat) (zs : List String) : List (List (List (Option Piece))) :=
  (List.range zcap).map fun z => buildPlane ycap xcap (splitStr ',' (zs.getD z ""))

/-- The `w` loop. -/
def buildW (wcap zcap ycap xcap : Nat) (ws : List String) : Layout :=
  (List.range wcap).map fun w => buildZ zcap ycap xcap (splitStr '/' (ws.getD w ""))

/-- Helper for `scanPieces`: the contribution of one visited cell. -/
def scanCell (g : GameState) (loc : Vec) : List (Vec × Piece) :=
  match cellAt g.layout loc with
  | some p => [(loc, p)]
  | none => []

/-- `forPiece` visiting order (part_001 lines 765-784), collecting the
non-null cells: `w` outermost, then `z`, `y`, `x`; the inner loop guards
also require the corresponding layer of the layout to be non-empty. -/
def scanPieces (g : GameState) : List (Vec × Piece) :=
  (List.range (min g.size.w.toNat g.layout.length)).flatMap fun w =>
    (if (g.layout.getD w []).length = 0 then [] else List.range g.size.z.toNat).flatMap fun z =>
      (if ((g.layout.getD w []).getD z []).length = 0 then []
       else List.range g.size.y.toNat).flatMap fun y =>
        (if (((g.layout.getD w []).getD z []).getD y []).length = 0 then []
         else List.range g.size.x.toNat).flatMap fun x =>
          scanCell g ⟨(x : Int), (y : Int), (z : Int), (w : Int)⟩

/-- The default rule dictionary, `initPieceDict` (part_001 lines 272-498),
transcribed literally.  In the current snapshot the king's castling
branches are commented out, so its tree is the single reference `"Q"`. -/
def dirPath (x y z w : Int) : Path :=
  Path.mk none none none (some ⟨x, y, z, w⟩) none

/-- A pawn branch `{direction, attack}`. -/
def dirAtkPath (x y : Int) (a : Int) : Path :=
  Path.mk none none (some a) (some ⟨x, y, 0, 0⟩) none

/-- A pawn branch `{direction, attack, condition}`. -/
def dirAtkCondPath (x y : Int) (a : Int) (cs : List Condition) : Path :=
  Path.mk none (some cs) (some a) (some ⟨x, y, 0, 0⟩) none

/-- The rook rule: one sliding node with eight axis directions. -/
def rookRule : PieceRule :=
  ⟨[Path.mk (some .inf) none (some 1) none (some
      [.inr (dirPath 1 0 0 0), .inr (dirPath (-1) 0 0 0),
       .inr (dirPath 0 1 0 0), .inr (dirPath 0 (-1) 0 0),
       .inr (dirPath 0 0 1 0), .inr (dirPath 0 0 (-1) 0),
       .inr (dirPath 0 0 0 1), .inr (dirPath 0 0 0 (-1))])]⟩

/-- The bishop rule: one sliding node with the 24 two-axis diagonals. -/
def bishopRule : PieceRule :=
  ⟨[Path.mk (some .inf) none (some 1) none (some
      [.inr (dirPath 1 1 0 0), .inr (dirPath 1 (-1) 0 0),
       .inr (dirPath (-1) 1 0 0), .inr (dirPath (-1) (-1) 0 0),
       .inr (dirPath 1 0 1 0), .inr (dirPath 1 0 (-1) 0),
       .inr (dirPath (-1) 0 1 0), .inr (dirPath (-1) 0 (-1) 0),
       .inr (dirPath 1 0 0 1), .inr (dirPath 1 0 0 (-1)),
       .inr (dirPath (-1) 0 0 1), .inr (dirPath (-1) 0 0 (-1)),
       .inr (dirPath 0 1 1 0), .inr (dirPath 0 1 (-1) 0),
       .inr (dirPath 0 (-1) 1 0), .inr (dirPath 0 (-1) (-1) 0),
       .inr (dirPath 0 1 0 1), .inr (dirPath 0 1 0 (-1)),
       .inr (dirPath 0 (-1) 0 1), .inr (dirPath 0 (-1) 0 (-1)),
       .inr (dirPath 0 0 1 1), .inr (dirPath 0 0 1 (-1)),
       .inr (dirPath 0 0 (-1) 1), .inr (dirPath 0 0 (-1) (-1))])]⟩

/-- The queen rule: union of the rook and bishop trees by reference. -/
def queenRule : PieceRule :=
  ⟨[Path.mk none none none none (some [.inl "R", .inl "B"])]⟩

/-- The knight rule: one single-step node with the 48 (2,1) jumps. -/
def knightRule : PieceRule :=
  ⟨[Path.mk (some (.fin 1)) none (some 1) none (some
      [.inr (dirPath 2 1 0 0), .inr (dirPath 1 2 0 0),
       .inr (dirPath (-2) 1 0 0), .inr (dirPath (-1) 2 0 0),
       .inr (dirPath 2 (-1) 0 0), .inr (dirPath 1 (-2) 0 0),
       .inr (dirPath (-2) (-1) 0 0), .inr (dirPath (-1) (-2) 0 0),
       .inr (dirPath 2 0 1 0), .inr (dirPath 1 0 2 0),
       .inr (dirPath (-2) 0 1 0), .inr (dirPath (-1) 0 2 0),
       .inr (dirPath 2 0 (-1) 0), .inr (dirPath 1 0 (-2) 0),
       .inr (dirPath (-2) 0 (-1) 0), .inr (dirPath (-1) 0 (-2) 0),
       .inr (dirPath 2 0 0 1), .inr (dirPath 1 0 0 2),
       .inr (dirPath (-2) 0 0 1), .inr (dirPath (-1) 0 0 2),
       .inr (dirPath 2 0 0 (-1)), .inr (dirPath 1 0 0 (-2)),
       .inr (dirPath (-2) 0 0 (-1)), .inr (dirPath (-1) 0 0 (-2)),
       .inr (dirPath 0 2 1 0), .inr (dirPath 0 1 2 0),
       .inr (dirPath 0 (-2) 1 0), .inr (dirPath 0 (-1) 2 0),
       .inr (dirPath 0 2 (-1) 0), .inr (dirPath 0 1 (-2) 0),
       .inr (dirPath 0 (-2) (-1) 0), .inr (dirPath 0 (-1) (-2) 0),
       .inr (dirPath 0 2 0 1), .inr (dirPath 0 1 0 2),
       .inr (dirPath 0 (-2) 0 1), .inr (dirPath 0 (-1) 0 2),
       .inr (dirPath 0 2 0 (-1)), .inr (dirPath 0 1 0 (-2)),
       .inr (dirPath 0 (-2) 0 (-1)), .inr (dirPath 0 (-1) 0 (-2)),
       .inr (dirPath 0 0 2 1), .inr (dirPath 0 0 1 2),
       .inr (dirPath 0 0 (-2) 1), .inr (dirPath 0 0 (-1) 2),
       .inr (dirPath 0 0 2 (-1)), .inr (dirPath 0 0 1 (-2)),
       .inr (dirPath 0 0 (-2) (-1)), .inr (dirPath 0 0 (-1) (-2))])]⟩

/-- The pawn rule: one root per team; forward pushes are `attack: 0`,
diagonal captures require an enemy at the destination, the double step
requires flag 0 and no piece on the intermediate square, and two unused
en-passant-like branches require flags 1 and 2. -/
def pawnRule : PieceRule :=
  ⟨[Path.mk (some (.fin 1)) (some [{ team := some 0 }]) none none (some
      [.inr (dirAtkPath 0 1 0),
       .inr (Path.mk none none (some 0) (some ⟨0, 0, 0, 1⟩) none),
       .inr (dirAtkCondPath 1 1 1 [{ enemy := some ⟨0, 0, 0, 0⟩ }]),
       .inr (dirAtkCondPath (-1) 1 1 [{ enemy := some ⟨0, 0, 0, 0⟩ }]),
       .inr (dirAtkCondPath 0 2 0
         [{ flag := some 0 }, { inverted := true, piece := some ⟨0, -1, 0, 0⟩ }]),
       .inr (dirAtkCondPath 1 1 1 [{ flag := some 1 }]),
       .inr (dirAtkCondPath (-1) 1 1 [{ flag := some 2 }])]),
    Path.mk (some (.fin 1)) (some [{ team := some 1 }]) none none (some
      [.inr (dirAtkPath 0 (-1) 0),
       .inr (Path.mk none none (some 0) (some ⟨0, 0, 0, -1⟩) none),
       .inr (dirAtkCondPath 1 (-1) 1 [{ enemy := some ⟨0, 0, 0, 0⟩ }]),
       .inr (dirAtkCondPath (-1) (-1) 1 [{ enemy := some ⟨0, 0, 0, 0⟩ }]),
       .inr (dirAtkCondPath 0 (-2) 0
         [{ flag := some 0 }, { inverted := true, piece := some ⟨0, 1, 0, 0⟩ }]),
       .inr (dirAtkCondPath 1 (-1) 1 [{ flag := some 1 }]),
       .inr (dirAtkCondPath (-1) (-1) 1 [{ flag := some 2 }])])]⟩

/-- The king rule of the current snapshot: a single-step, single-capture
node whose only branch is the reference to the queen's tree. -/
def kingRule : PieceRule :=
  ⟨[Path.mk (some (.fin 1)) none (some 1) none (some [.inl "Q"])]⟩

/-- The insertion order of `initPieceDict`. -/
def defaultDict : Dict :=
  [("R", rookRule), ("B", bishopRule), ("Q", queenRule),
   ("N", knightRule), ("P", pawnRule), ("K", kingRule)]

/-- The `Game` constructor (part_001 lines 185-265): parse the size,
build the layout with the run-length row grammar, collect the occupancy
index in `forPiece` order (every entry aliases its board cell), install
the default rule dictionary and merge the caller's custom dictionary
over it.  The constructor never consults the dictionary for layout
characters, so it never fails. -/
def mkGame (input : String) (customDict : Dict) : GameState :=
  let inputArr := splitStr ' ' input
  let sizeArr := splitStr ',' (inputArr.getD 0 "")
  let size : Vec :=
    ⟨orZero (jsParseInt (sizeArr.getD 0 "")), orZero (jsParseInt (sizeArr.getD 1 "")),
     orZero (jsParseInt (sizeArr.getD 2 "")), orZero (jsParseInt (sizeArr.getD 3 ""))⟩
  let body := inputArr.getD 1 ""
  let wInput := if body = "" then [] else splitStr '|' body
  let layout := buildW size.w.toNat size.z.toNat size.y.toNat size.x.toNat wInput
  let g0 : GameState :=
    { size := size, layout := layout, pois := [], pieceDict := [], cache := [] }
  { g0 with
    pois := (scanPieces g0).map fun pr => ⟨pr.2, pr.1, true⟩
    pieceDict := mergeDict defaultDict customDict }

/-- The default starting game, `new Game()`. -/
def defaultGame : GameState :=
  mkGame "8,8,1,1 RNBQKBNR,PPPPPPPP,8,8,8,8,pppppppp,rnbqkbnr" []

/-- `(path.direction?.x || 0)` etc.: the direction offset used when
evaluating relative-offset conditions. -/
def dirComp (d : Option Vec) (f : Vec → Int) : Int :=
  match d with
  | none => 0
  | some v => f v

/-- One condition test (part_001 lines 659-699): required team, required
flag, piece present at a relative offset, live enemy at a relative
offset, each test conjunctive, and `inverted` negating the conjunction
for this condition. -/
def condHolds (size : Vec) (layout : Layout) (piece : Piece) (pos : Vec)
    (dir : Option Vec) (con : Condition) : Bool :=
  let base :=
    (match con.team with
     | none => true
     | some t => piece.team = t) &&
    (match con.flag with
     | none => true
     | some f => piece.flags.contains f) &&
    (match con.piece with
     | none => true
     | some off =>
         let loc : Vec := ⟨pos.x + off.x + dirComp dir Vec.x,
                           pos.y + off.y + dirComp dir Vec.y,
                           pos.z + off.z + dirComp dir Vec.z,
                           pos.w + off.w + dirComp dir Vec.w⟩
         isInBounds size loc && (cellAt layout loc).isSome) &&
    (match con.enemy with
     | none => true
     | some off =>
         let loc : Vec := ⟨pos.x + off.x + dirComp dir Vec.x,
                           pos.y + off.y + dirComp dir Vec.y,
                           pos.z + off.z + dirComp dir Vec.z,
                           pos.w + off.w + dirComp dir Vec.w⟩
         isInBounds size loc &&
           (match cellAt layout loc with
            | none => false
            | some view => !(view.team = piece.team)))
  if con.inverted then !base else base

/-- The whole condition list of a node, given the node's `condition` and
`direction` fields; an absent list passes. -/
def condsPassC (size : Vec) (layout : Layout) (piece : Piece) (pos : Vec)
    (conds : Option (List Condition)) (dir : Option Vec) : Bool :=
  match conds with
  | none => true
  | some cs => cs.all (condHolds size layout piece pos dir)

/-- The whole condition list of a node; an absent list passes. -/
def condsPass (size : Vec) (layout : Layout) (piece : Piece) (pos : Vec)
    (path : Path) : Bool :=
  condsPassC size layout piece pos path.condition path.direction

/-- Budget inheritance for the repeat bound (part_001 line 706):
an unset inherited value is filled from the node when the node's value
is at least 1 (`Infinity >= 1` holds). -/
def inheritRep (cur : Option RepCount) (node : Option RepCount) : Option RepCount :=
  match cur with
  | some _ => cur
  | none =>
      match node with
      | some (.fin n) => if 1 ≤ n then some (.fin n) else none
      | some .inf => some .inf
      | none => none

/-- Budget inheritance for the attack bound (part_001 line 708). -/
def inheritAtk (cur : Option Int) (node : Option Int) : Option Int :=
  match cur with
  | some _ => cur
  | none =>
      match node with
      | some a => if 0 ≤ a then some a else none
      | none => none

/-- The walk fuel for a sliding leaf, as justified in the module header:
an in-bounds walk with a nonzero direction leaves the board within this
many steps. -/
def slideFuel (size : Vec) : Nat :=
  size.x.toNat + size.y.toNat + size.z.toNat + size.w.toNat + 1

/-- The step count of the leaf loop `for (count = 0; count < stats.repeat)`. -/
def repFuel (size : Vec) : RepCount → Nat
  | .fin n => n.toNat
  | .inf => slideFuel size

/-- The leaf ray walk (part_001 lines 711-727), transcribed exactly: an
out-of-bounds step breaks; an empty cell records a move and continues;
an ally breaks recording nothing; an enemy increments the capture count,
records the move, and breaks only when the count now equals the attack
bound.  (Note this records a capture even when the bound is 0, and then
keeps walking, because the count, already 1, will never equal 0.) -/
def raySteps (size : Vec) (layout : Layout) (piece : Piece) (pos d : Vec)
    (attack : Int) : Vec → Int → Nat → List Move
  | _, _, 0 => []
  | loc, atk, n + 1 =>
      let loc' := loc.add d
      if !isInBounds size loc' then []
      else
        match cellAt layout loc' with
        | none => Move.make pos loc' :: raySteps size layout piece pos d attack loc' atk n
        | some view =>
            if view.team = piece.team then []
            else
              let atk' := atk + 1
              if atk' = attack then [Move.make pos loc']
              else Move.make pos loc' :: raySteps size layout piece pos d attack loc' atk' n

/-- The three call shapes of the rule-tree interpreter: evaluating one
node, walking a node's branch list with the accumulated moves, and
walking a referenced tree's list of root paths with the shared
budget object. -/
inductive EvalCall where
  | path (path : Path) (srep : Option RepCount) (satk : Option Int)
  | branches (srep : Option RepCount) (satk : Option Int) (acc : List Move)
      (bs : List (String ⊕ Path))
  | trees (srep : Option RepCount) (satk : Option Int) (ps : List Path)

/-- `evaluatePath` (part_001 lines 651-751) as a fuel-indexed
interpreter (structural recursion on the fuel, so that the kernel can
evaluate it; the fuel supplied by the move queries far exceeds the
recursion the source performs on the dictionaries in this file, and on
inputs where the source diverges the interpreter reports exhaustion).

`.path`: conditions first (a failed condition yields zero moves for
the whole node), then budget inheritance; a node with a direction walks
its ray provided both budgets are set, a node with branches walks them,
and any other node contributes nothing.

`.branches`: a string branch equal to the moving piece's own id makes
the whole node return `[]`, discarding the accumulator and skipping the
remaining branches (`return [];` in the source); any other string
branch dereferences the dictionary (the source's unchecked
`.get(branch)!` is an error here) and evaluates that tree's roots; a
nested node is evaluated directly.  Each branch receives the node's
budgets afresh (`statsCopy`).

`.trees`: the `for (branch2 of tree)` loop over a referenced tree's
roots; the single `statsCopy` object is shared by the whole loop, and a
root whose conditions pass writes its budgets into it before the next
root runs, so the budgets are threaded exactly as the mutation threads
them. -/
def evalGo (size : Vec) (layout : Layout) (dict : Dict) (piece : Piece) (pos : Vec) :
    Nat → EvalCall → Except String (List Move)
  | 0, _ => .error "rule recursion fuel exhausted"
  | fuel + 1, .path path srep satk =>
      match path with
      | .mk prep pconds patk pdir pbranches =>
          if !condsPassC size layout piece pos pconds pdir then .ok []
          else
            let srep' := inheritRep srep prep
            let satk' := inheritAtk satk patk
            match pdir with
            | some d =>
                match srep', satk' with
                | some r, some a =>
                    .ok (raySteps size layout piece pos d a pos 0 (repFuel size r))
                | _, _ => .ok []
            | none =>
                match pbranches with
                | some bs => evalGo size layout dict piece pos fuel (.branches srep' satk' [] bs)
                | none => .ok []
  | fuel + 1, .branches srep satk acc bs =>
      match bs with
      | [] => .ok acc
      | .inl str :: rest =>
          if str = piece.id then .ok []
          else
            match lookupDict dict str with
            | none => .error ("TypeError: no rule for " ++ str)
            | some rule =>
                match evalGo size layout dict piece pos fuel (.trees srep satk rule.pathTree) with
                | .error e => .error e
                | .ok ms =>
                    evalGo size layout dict piece pos fuel (.branches srep satk (acc ++ ms) rest)
      | .inr p :: rest =>
          match evalGo size layout dict piece pos fuel (.path p srep satk) with
          | .error e => .error e
          | .ok ms =>
              evalGo size layout dict piece pos fuel (.branches srep satk (acc ++ ms) rest)
  | fuel + 1, .trees srep satk ps =>
      match ps with
      | [] => .ok []
      | p :: ps' =>
          match evalGo size layout dict piece pos fuel (.path p srep satk) with
          | .error e => .error e
          | .ok ms =>
              let pass := condsPass size layout piece pos p
              let srep' := if pass then inheritRep srep p.rep else srep
              let satk' := if pass then inheritAtk satk p.attack else satk
              match evalGo size layout dict piece pos fuel (.trees srep' satk' ps') with
              | .error e => .error e
              | .ok rest => .ok (ms ++ rest)

/-- Interpreter fuel used by the move queries.  One unit is consumed per
interpreter step, so a query needs fuel proportional to the total number
of rule-tree nodes and branches it visits; a terminating source
evaluation revisits a dictionary tree only while the set-once budget
pair still changes, so the visit count is small, and this bound exceeds
it by orders of magnitude for every dictionary in this file.  On inputs
where the source diverges (cyclic references not caught by the
self-reference guard) the interpreter reports exhaustion instead. -/
def dictFuel (dict : Dict) : Nat := 1000 * (dict.length + 1)

/-- The root-path loop of `getMoves`: a fresh `stats` object per root. -/
def evalRoots (fuel : Nat) (size : Vec) (layout : Layout) (dict : Dict)
    (piece : Piece) (pos : Vec) : List Path → Except String (List Move)
  | [] => .ok []
  | p :: ps =>
      match evalGo size layout dict piece pos fuel (.path p none none) with
      | .error e => .error e
      | .ok ms =>
          match evalRoots fuel size layout dict piece pos ps with
          | .error e => .error e
          | .ok rest => .ok (ms ++ rest)

/-- `getMoves(pos, false)` (part_001 lines 615-649 with `kingCheck`
false): occupant lookup (out-of-bounds throws), the `MissingRuleError`
check, then the root-path loop, each root starting with unset budgets.
With `kingCheck` false neither the cache nor the board is touched, so
this is a pure function of the size, layout and dictionary. -/
def getMovesNC (size : Vec) (layout : Layout) (dict : Dict) (pos : Vec) :
    Except String (List Move) :=
  match getPieceE size layout pos with
  | .error e => .error e
  | .ok none => .ok []
  | .ok (some piece) =>
      match lookupDict dict piece.id with
      | none => .error (missingRuleMsg piece.id)
      | some data => evalRoots (dictFuel dict) size layout dict piece pos data.pathTree

/-- `getMovesForTeam(team, false)` (part_001 lines 843-851 with
`kingCheck` false): walk a snapshot of the occupancy index and
concatenate each own-team origin's unchecked moves.  Pure for the same
reason as `getMovesNC`. -/
def gmftNC (size : Vec) (layout : Layout) (dict : Dict) (team : Int) :
    List PoiEntry → Except String (List Move)
  | [] => .ok []
  | e :: rest =>
      if e.piece.team = team then
        match getMovesNC size layout dict e.pos with
        | .error err => .error err
        | .ok ms =>
            match gmftNC size layout dict team rest with
            | .error err => .error err
            | .ok ms' => .ok (ms ++ ms')
      else gmftNC size layout dict team rest

/-- `putsKingInCheck` (part_001 lines 792-812).  Success path: snapshot
layout (deep JSON clone) and index (shallow copy), apply the move with
cache invalidation suppressed, collect the squares of the checked team's
kings from the post-move index, generate all of the opposing team's
unchecked moves, restore the snapshots, and report whether any opposing
destination hits a king square.  The restored index consists of the
pre-move entry objects, so an entry that aliased the moved piece object
shows that object's reassigned empty flag list, and no restored entry
aliases the freshly cloned board cells any more.  There is no
`try`/`finally`: if the move or the reply generation throws, the
exception escapes with the board still in its simulated state. -/
def putsKingInCheck (g : GameState) (mov : Move) (team : Int) :
    Except String Bool × GameState :=
  match getPieceE g.size g.layout mov.src with
  | .error e => (.error e, g)
  | .ok none => (.ok false, g)
  | .ok (some piece) =>
      let layoutClone := g.layout
      let poisClone := g.pois
      match moveE g mov false with
      | (.error e, g1) => (.error e, g1)
      | (.ok _, g1) =>
          let kings := (g1.pois.filter fun e => e.piece.id = "K" && e.piece.team = team).map
            (·.pos)
          match gmftNC g1.size g1.layout g1.pieceDict (if team = 0 then 1 else 0) g1.pois with
          | .error e => (.error e, g1)
          | .ok moves =>
              let cleared := piece.flags.contains 0
              let restored := poisClone.map fun e =>
                if e.aliased && e.pos = mov.src && cleared then
                  { e with piece := { e.piece with flags := [] }, aliased := false }
                else { e with aliased := false }
              let gR := { g1 with layout := layoutClone, pois := restored }
              (.ok (moves.any fun m => kings.any fun k => k = m.dst), gR)

/-- The king-check filter loop of `getMoves` (part_001 lines 638-643):
keep, in order, the candidates for which `putsKingInCheck` reports
false, threading the state of each legality simulation. -/
def checkLoop (team : Int) : GameState → List Move → Except String (List Move) × GameState
  | g, [] => (.ok [], g)
  | g, m :: rest =>
      match putsKingInCheck g m team with
      | (.error e, g') => (.error e, g')
      | (.ok b, g') =>
          match checkLoop team g' rest with
          | (.error e, g'') => (.error e, g'')
          | (.ok l, g'') => (.ok (if b then l else m :: l), g'')

/-- `getMoves(pos, kingCheck)` (part_001 lines 615-649): occupant and
dictionary checks, then — only for a king-checked query — the cache
lookup; on a miss the unfiltered candidates are generated, filtered by
`putsKingInCheck`, stored in the cache under the serialized origin, and
returned.  An unchecked query returns the unfiltered candidates and
leaves the state untouched. -/
def getMoves (g : GameState) (pos : Vec) (kingCheck : Bool) :
    Except String (List Move) × GameState :=
  match getPieceE g.size g.layout pos with
  | .error e => (.error e, g)
  | .ok none => (.ok [], g)
  | .ok (some piece) =>
      match lookupDict g.pieceDict piece.id with
      | none => (.error (missingRuleMsg piece.id), g)
      | some data =>
          match kingCheck, lookupCache g.cache (Vec.serializeV pos) with
          | true, some cached => (.ok cached, g)
          | _, _ =>
              match evalRoots (dictFuel g.pieceDict) g.size g.layout g.pieceDict piece pos
                  data.pathTree with
              | .error e => (.error e, g)
              | .ok moves =>
                  if kingCheck then
                    match checkLoop piece.team g moves with
                    | (.error e, g1) => (.error e, g1)
                    | (.ok checked, g1) =>
                        (.ok checked,
                         { g1 with cache := cacheSet g1.cache (Vec.serializeV pos) checked })
                  else (.ok moves, g)

/-- The loop of `getMovesForTeam` over a snapshot of the index. -/
def gmftLoop (team : Int) (kingCheck : Bool) :
    GameState → List PoiEntry → Except String (List Move) × GameState
  | g, [] => (.ok [], g)
  | g, e :: rest =>
      if e.piece.team = team then
        match getMoves g e.pos kingCheck with
        | (.error err, g') => (.error err, g')
        | (.ok ms, g') =>
            match gmftLoop team kingCheck g' rest with
            | (.error err, g'') => (.error err, g'')
            | (.ok ms', g'') => (.ok (ms ++ ms'), g'')
      else gmftLoop team kingCheck g rest

/-- `getMovesForTeam` (part_001 lines 843-851). -/
def getMovesForTeam (g : GameState) (team : Int) (kingCheck : Bool) :
    Except String (List Move) × GameState :=
  gmftLoop team kingCheck g g.pois

/-- `isValidMove` (part_001 lines 831-834): a move is valid when the
(king-checked, unless disabled) list for its source contains a move with
the same source and destination. -/
def isValidMove (g : GameState) (mov : Move) (kingCheck : Bool) :
    Except String Bool × GameState :=
  match getMoves g mov.src kingCheck with
  | (.error e, g') => (.error e, g')
  | (.ok moves, g') =>
      (.ok (moves.any fun a => a.src = mov.src && a.dst = mov.dst), g')

/-- The result of `moveIfValid`: the taken piece, or the `false` marker. -/
inductive MIV where
  | moved (taken : Option Piece)
  | invalid
deriving DecidableEq, Repr

/-- `moveIfValid` (part_001 lines 819-823). -/
def moveIfValid (g : GameState) (mov : Move) : Except String MIV × GameState :=
  match isValidMove g mov true with
  | (.error e, g') => (.error e, g')
  | (.ok true, g') =>
      match moveE g' mov true with
      | (.error e, g'') => (.error e, g'')
      | (.ok taken, g'') => (.ok (.moved taken), g'')
  | (.ok false, g') => (.ok .invalid, g')

/-! ### Shape of the occupancy index

`putsKingInCheck` restores the index up to the flag lists (and the ghost
aliasing bits) of its entries.  The lemmas below show that everything
the legality check reads from the index — entry order, positions, ids
and teams — is captured by this shape, so a simulation step never
changes the outcome of a later one. -/

/-- The part of an index entry that the move queries can observe:
position, piece id and team (the flag list is read only from board
cells, never from the index). -/
def poiShape (e : PoiEntry) : Vec × String × Int := (e.pos, e.piece.id, e.piece.team)

/-- `spliceLoop` on shapes. -/
def spliceShapes (pos : Vec) : List (Vec × String × Int) → List (Vec × String × Int)
  | [] => []
  | [e] => if e.1 = pos then [] else [e]
  | e :: f :: rest =>
      if e.1 = pos then f :: spliceShapes pos rest
      else e :: spliceShapes pos (f :: rest)

theorem spliceLoop_shape (pos : Vec) (l : List PoiEntry) :
    (spliceLoop pos l).map poiShape = spliceShapes pos (l.map poiShape) := by
  induction l using spliceLoop.induct pos <;>
    simp [spliceLoop, spliceShapes, poiShape, *]

theorem setPiecePoiList_shape (l : List PoiEntry) (pos : Vec) (p : Option Piece) :
    (setPiecePoiList l pos p).map poiShape =
      spliceShapes pos (l.map poiShape) ++
        (match p with
         | some piece => [(pos, piece.id, piece.team)]
         | none => []) := by
  cases p <;> simp [setPiecePoiList, spliceLoop_shape, poiShape]

/-- Equality of everything the legality check can observe about two
states: size, board, dictionary, and the shape of the occupancy index.
The cache is excluded because no unchecked query reads it, and the flag
lists of index entries are excluded because no query reads them. -/
def ShapeEq (g1 g2 : GameState) : Prop :=
  g1.size = g2.size ∧ g1.layout = g2.layout ∧ g1.pieceDict = g2.pieceDict ∧
    g1.pois.map poiShape = g2.pois.map poiShape

theorem ShapeEq.refl (g : GameState) : ShapeEq g g := ⟨rfl, rfl, rfl, rfl⟩

theorem ShapeEq.trans {g1 g2 g3 : GameState} (h : ShapeEq g1 g2) (h' : ShapeEq g2 g3) :
    ShapeEq g1 g3 :=
  ⟨h.1.trans h'.1, h.2.1.trans h'.2.1, h.2.2.1.trans h'.2.2.1, h.2.2.2.trans h'.2.2.2⟩

theorem filter_map_pos_of_shape {l1 l2 : List PoiEntry}
    (h : l1.map poiShape = l2.map poiShape) (id : String) (team : Int) :
    ((l1.filter fun e => e.piece.id = id && e.piece.team = team).map (·.pos)) =
      ((l2.filter fun e => e.piece.id = id && e.piece.team = team).map (·.pos)) := by
  induction l1 generalizing l2 with
  | nil => cases l2 with
    | nil => rfl
    | cons f t => simp at h
  | cons e t ih =>
      cases l2 with
      | nil => simp at h
      | cons f t' =>
          simp only [List.map_cons, List.cons.injEq] at h
          obtain ⟨hs, ht⟩ := h
          have hpos : e.pos = f.pos := congrArg Prod.fst hs
          have hid : e.piece.id = f.piece.id := congrArg (Prod.fst ∘ Prod.snd) hs
          have hteam : e.piece.team = f.piece.team := congrArg (Prod.snd ∘ Prod.snd) hs
          simp only [List.filter_cons, hid, hteam, hpos]
          split <;> simp [ih ht, hpos]

theorem gmftNC_shape (size : Vec) (layout : Layout) (dict : Dict) (team : Int)
    {l1 l2 : List PoiEntry} (h : l1.map poiShape = l2.map poiShape) :
    gmftNC size layout dict team l1 = gmftNC size layout dict team l2 := by
  induction l1 generalizing l2 with
  | nil => cases l2 with
    | nil => rfl
    | cons f t => simp at h
  | cons e t ih =>
      cases l2 with
      | nil => simp at h
      | cons f t' =>
          simp only [List.map_cons, List.cons.injEq] at h
          obtain ⟨hs, ht⟩ := h
          have hpos : e.pos = f.pos := congrArg Prod.fst hs
          have hteam : e.piece.team = f.piece.team := congrArg (Prod.snd ∘ Prod.snd) hs
          simp only [gmftNC, hteam, hpos, ih ht]


theorem moveE_fields (g : GameState) (mov : Move) (cc : Bool) :
    ((moveE g mov cc).2).size = g.size ∧ ((moveE g mov cc).2).pieceDict = g.pieceDict ∧
      ((moveE g mov cc).2).cache = (if cc then [] else g.cache) := by
  rcases hs : getPieceE g.size g.layout mov.src with e | piece
  · cases cc <;> simp [moveE, setPieceLayoutE, hs]
  · rcases hd : getPieceE g.size (setCell g.layout mov.src none) mov.dst with e2 | target
    · cases cc <;> simp [moveE, setPieceLayoutE, hs, hd]
    · cases piece <;> cases cc <;> simp [moveE, setPieceLayoutE, hs, hd]

theorem moveE_congr (mov : Move) {g1 g2 : GameState} (h : ShapeEq g1 g2) :
    (moveE g1 mov false).1 = (moveE g2 mov false).1 ∧
      ShapeEq (moveE g1 mov false).2 (moveE g2 mov false).2 := by
  obtain ⟨hsz, hly, hdict, hpois⟩ := h
  have key1 : getPieceE g1.size g1.layout mov.src = getPieceE g2.size g2.layout mov.src := by
    rw [hsz, hly]
  have key2 : getPieceE g1.size (setCell g1.layout mov.src none) mov.dst =
      getPieceE g2.size (setCell g2.layout mov.src none) mov.dst := by
    rw [hsz, hly]
  rcases hs : getPieceE g2.size g2.layout mov.src with e | piece
  · simp [moveE, setPieceLayoutE, key1, hs, ShapeEq, hsz, hly, hdict, hpois]
  · rcases hd : getPieceE g2.size (setCell g2.layout mov.src none) mov.dst with e2 | target
    · simp [moveE, setPieceLayoutE, key1, key2, hs, hd, ShapeEq, hsz, hly, hdict, hpois]
    · cases piece <;>
        simp [moveE, setPieceLayoutE, key1, key2, hs, hd, ShapeEq, hsz, hly, hdict, hpois,
          spliceLoop_shape, setPiecePoiList_shape]

theorem restoredPois_shape (l : List PoiEntry) (src : Vec) (cleared : Bool) :
    ((l.map fun e =>
        if e.aliased && e.pos = src && cleared then
          { e with piece := { e.piece with flags := [] }, aliased := false }
        else { e with aliased := false }).map poiShape) = l.map poiShape := by
  induction l with
  | nil => rfl
  | cons e t ih =>
      simp only [List.map_cons, ih, List.cons.injEq, and_true]
      split <;> simp [poiShape]

theorem pkic_preserves (g : GameState) (mov : Move) (team : Int) (b : Bool)
    (h : (putsKingInCheck g mov team).1 = .ok b) :
    ShapeEq (putsKingInCheck g mov team).2 g ∧
      ((putsKingInCheck g mov team).2).cache = g.cache := by
  rcases hs : getPieceE g.size g.layout mov.src with e | piece
  · simp [putsKingInCheck, hs] at h
  · cases piece with
    | none => simp [putsKingInCheck, hs, ShapeEq.refl]
    | some piece =>
        rcases hm : moveE g mov false with ⟨r, g1⟩
        have hf := moveE_fields g mov false
        rw [hm] at hf
        cases r with
        | error e =>
            rw [putsKingInCheck] at h
            simp only [hs, hm] at h
            simp at h
        | ok tgt =>
            rcases hn : gmftNC g1.size g1.layout g1.pieceDict (if team = 0 then 1 else 0)
                g1.pois with e | moves
            · rw [putsKingInCheck] at h
              simp only [hs, hm, hn] at h
              simp at h
            · simp only [] at hf
              obtain ⟨hf1, hf2, hf3⟩ := hf
              constructor
              · refine ⟨?_, ?_, ?_, ?_⟩
                · simpa [putsKingInCheck, hs, hm, hn] using hf1
                · simp [putsKingInCheck, hs, hm, hn]
                · simpa [putsKingInCheck, hs, hm, hn] using hf2
                · simp only [putsKingInCheck, hs, hm, hn]
                  exact restoredPois_shape g.pois mov.src (piece.flags.contains 0)
              · simpa [putsKingInCheck, hs, hm, hn] using hf3

theorem pkic_congr (mov : Move) (team : Int) {g1 g2 : GameState} (h : ShapeEq g1 g2) :
    (putsKingInCheck g1 mov team).1 = (putsKingInCheck g2 mov team).1 := by
  obtain ⟨hsz, hly, hdict, hpois⟩ := h
  have key1 : getPieceE g1.size g1.layout mov.src = getPieceE g2.size g2.layout mov.src := by
    rw [hsz, hly]
  rcases hs : getPieceE g2.size g2.layout mov.src with e | piece
  · simp [putsKingInCheck, key1, hs]
  · cases piece with
    | none => simp [putsKingInCheck, key1, hs]
    | some piece =>
        obtain ⟨hfst, hpost⟩ := moveE_congr mov ⟨hsz, hly, hdict, hpois⟩
        rcases hm2 : moveE g2 mov false with ⟨r2, gb⟩
        rcases hm1 : moveE g1 mov false with ⟨r1, ga⟩
        rw [hm1, hm2] at hfst hpost
        simp only [] at hfst hpost
        obtain ⟨psz, ply, pdict, ppois⟩ := hpost
        subst hfst
        cases r1 with
        | error e => simp [putsKingInCheck, key1, hs, hm1, hm2]
        | ok tgt =>
            have hng : gmftNC ga.size ga.layout ga.pieceDict (if team = 0 then 1 else 0) ga.pois =
                gmftNC gb.size gb.layout gb.pieceDict (if team = 0 then 1 else 0) gb.pois := by
              rw [psz, ply, pdict]
              exact gmftNC_shape _ _ _ _ ppois
            have hkings := filter_map_pos_of_shape ppois "K" team
            rcases hn : gmftNC gb.size gb.layout gb.pieceDict (if team = 0 then 1 else 0)
                gb.pois with e | moves
            · rw [hn] at hng
              simp [putsKingInCheck, key1, hs, hm1, hm2, hn, hng]
            · rw [hn] at hng
              simp only [putsKingInCheck, key1, hs, hm1, hm2, hn, hng]
              rw [hkings]

theorem checkLoop_filter (team : Int) (g0 : GameState) :
    ∀ (moves : List Move) (g : GameState), ShapeEq g g0 →
      ∀ l, (checkLoop team g moves).1 = .ok l →
        l = moves.filter fun m => decide ((putsKingInCheck g0 m team).1 = .ok false) := by
  intro moves
  induction moves with
  | nil =>
      intro g _ l h
      simp [checkLoop] at h
      simp [h]
  | cons m rest ih =>
      intro g hg l h
      rcases hp : putsKingInCheck g m team with ⟨r, g'⟩
      cases r with
      | error e =>
          rw [checkLoop] at h
          simp only [hp] at h
          simp at h
      | ok b =>
          have hb : (putsKingInCheck g0 m team).1 = .ok b := by
            rw [← pkic_congr m team hg, hp]
          have hg' : ShapeEq g' g0 := by
            have := (pkic_preserves g m team b (by rw [hp])).1
            rw [hp] at this
            exact this.trans hg
          rcases hc : checkLoop team g' rest with ⟨rr, g''⟩
          cases rr with
          | error e =>
              rw [checkLoop] at h
              simp only [hp, hc] at h
              simp at h
          | ok ll =>
              rw [checkLoop] at h
              simp only [hp, hc] at h
              simp only [Except.ok.injEq] at h
              have hll := ih g' hg' ll (by rw [hc])
              rw [List.filter_cons]
              cases b with
              | true => simp only [hb, ← h, hll]; simp
              | false => simp only [hb, ← h, hll]; simp

/-- C5, amended.  A string branch naming the moving piece's own type id
does not merely contribute zero moves for that branch: the source's
`return [];` makes the whole node yield zero moves, discarding whatever
earlier branches of the same node had produced and skipping the later
branches.  (When no branch names the piece's own id, branches do
concatenate, as `evalGo` computes.)  Formally: if the branch walk over a
prefix `l1` finishes without an error, then the same walk over
`l1 ++ [own id] ++ l2` returns the empty list. -/
theorem evalGo_self_branch_discards
    (size : Vec) (layout : Layout) (dict : Dict) (piece : Piece) (pos : Vec)
    (l2 : List (String ⊕ Path)) :
    ∀ (l1 : List (String ⊕ Path)) (fuel : Nat) (srep : Option RepCount)
      (satk : Option Int) (acc r : List Move),
      evalGo size layout dict piece pos fuel (.branches srep satk acc l1) = .ok r →
      evalGo size layout dict piece pos fuel
        (.branches srep satk acc (l1 ++ .inl piece.id :: l2)) = .ok [] := by
  intro l1
  induction l1 with
  | nil =>
      intro fuel srep satk acc r h
      cases fuel with
      | zero => simp [evalGo] at h
      | succ n => simp [evalGo]
  | cons b rest ih =>
      intro fuel srep satk acc r h
      cases fuel with
      | zero => simp [evalGo] at h
      | succ n =>
          cases b with
          | inl str =>
              by_cases hself : str = piece.id
              · simp [evalGo, hself]
              · rcases hl : lookupDict dict str with _ | rule
                · rw [evalGo] at h
                  simp [hself, hl] at h
                · rcases ht : evalGo size layout dict piece pos n
                      (.trees srep satk rule.pathTree) with e | ms
                  · rw [evalGo] at h
                    simp [hself, hl, ht] at h
                  · simp only [evalGo, List.cons_append, hself, hl, ht, if_neg,
                      ite_false] at h ⊢
                    exact ih n srep satk (acc ++ ms) r h
          | inr p =>
              rcases hp : evalGo size layout dict piece pos n (.path p srep satk) with e | ms
              · rw [evalGo] at h
                simp [hp] at h
              · simp only [evalGo, List.cons_append, hp] at h ⊢
                exact ih n srep satk (acc ++ ms) r h

/-- The layout of a constructed game has exactly the dimensions declared
by its size; board cells can then be read back after writes. -/
def layoutSized (size : Vec) (layout : Layout) : Bool :=
  layout.length = size.w.toNat &&
    layout.all fun wl =>
      wl.length = size.z.toNat &&
        wl.all fun zl =>
          zl.length = size.y.toNat && zl.all fun yl => yl.length = size.x.toNat

theorem getD_set_self {a : Type u} (l : List a) (i : Nat) (v d : a) (h : i < l.length) :
    (l.set i v).getD i d = v := by
  simp [List.getD, List.getElem?_set_self', h]

theorem getD_mem {a : Type u} (l : List a) (i : Nat) (d : a) (h : i < l.length) :
    l.getD i d ∈ l := by
  rw [List.getD_eq_getElem?_getD, List.getElem?_eq_getElem h]
  exact List.getElem_mem _

theorem cellAt_setCell (size : Vec) (L : Layout) (pos : Vec) (v : Option Piece)
    (hwf : layoutSized size L = true) (hin : isInBounds size pos = true) :
    cellAt (setCell L pos v) pos = v := by
  simp only [layoutSized, Bool.and_eq_true, List.all_eq_true, decide_eq_true_eq] at hwf
  simp only [isInBounds, Bool.and_eq_true, decide_eq_true_eq] at hin
  obtain ⟨⟨⟨⟨⟨⟨⟨hx0, hx1⟩, hy0⟩, hy1⟩, hz0⟩, hz1⟩, hw0⟩, hw1⟩ := hin
  obtain ⟨hL, hall⟩ := hwf
  have hw : pos.w.toNat < L.length := by rw [hL]; omega
  obtain ⟨hz, hzall⟩ := hall _ (getD_mem L pos.w.toNat [] hw)
  have hzlt : pos.z.toNat < (L.getD pos.w.toNat []).length := by rw [hz]; omega
  obtain ⟨hy, hyall⟩ := hzall _ (getD_mem _ pos.z.toNat [] hzlt)
  have hylt : pos.y.toNat < ((L.getD pos.w.toNat []).getD pos.z.toNat []).length := by
    rw [hy]; omega
  have hxlen := hyall _ (getD_mem _ pos.y.toNat [] hylt)
  have hxlt : pos.x.toNat <
      (((L.getD pos.w.toNat []).getD pos.z.toNat []).getD pos.y.toNat []).length := by
    rw [hxlen]; omega
  unfold cellAt setCell
  rw [getD_set_self _ _ _ _ hw, getD_set_self _ _ _ _ hzlt, getD_set_self _ _ _ _ hylt,
    getD_set_self _ _ _ _ hxlt]

theorem layoutSized_setCell (size : Vec) (L : Layout) (pos : Vec) (v : Option Piece)
    (h : layoutSized size L = true) (hin : isInBounds size pos = true) :
    layoutSized size (setCell L pos v) = true := by
  simp only [layoutSized, Bool.and_eq_true, List.all_eq_true, decide_eq_true_eq] at h ⊢
  simp only [isInBounds, Bool.and_eq_true, decide_eq_true_eq] at hin
  obtain ⟨⟨⟨⟨⟨⟨⟨hx0, hx1⟩, hy0⟩, hy1⟩, hz0⟩, hz1⟩, hw0⟩, hw1⟩ := hin
  obtain ⟨hL, hall⟩ := h
  have hw : pos.w.toNat < L.length := by rw [hL]; omega
  obtain ⟨hz, hzall⟩ := hall _ (getD_mem L pos.w.toNat [] hw)
  have hzlt : pos.z.toNat < (L.getD pos.w.toNat []).length := by rw [hz]; omega
  obtain ⟨hy, hyall⟩ := hzall _ (getD_mem _ pos.z.toNat [] hzlt)
  have hylt : pos.y.toNat < ((L.getD pos.w.toNat []).getD pos.z.toNat []).length := by
    rw [hy]; omega
  refine ⟨by simpa [setCell] using hL, ?_⟩
  intro wl hwl
  rcases List.mem_or_eq_of_mem_set hwl with hmem | rfl
  · exact hall _ hmem
  · refine ⟨by simpa using hz, ?_⟩
    intro zl hzl
    rcases List.mem_or_eq_of_mem_set hzl with hmem2 | rfl
    · exact hzall _ hmem2
    · refine ⟨by simpa using hy, ?_⟩
      intro yl hyl
      rcases List.mem_or_eq_of_mem_set hyl with hmem3 | rfl
      · exact hyall _ hmem3
      · simpa using hyall _ (getD_mem _ pos.y.toNat [] hylt)

/-- C10.  `move` applies the first-move rule by whole-list
reassignment: if the moved piece's flag list contains flag 0, the piece
stored at the destination has an empty flag list — every other flag it
carried is deleted with it — and if it does not contain flag 0, the
piece is stored completely unchanged; in particular a king's
castling-availability flags 1 and 2 survive any king move (see the
witness). -/
theorem c10_move_flag_reassignment (g : GameState) (mov : Move) (cc : Bool) (p : Piece)
    (hwf : layoutSized g.size g.layout = true)
    (hsrc : getPieceE g.size g.layout mov.src = .ok (some p))
    (hdst : isInBounds g.size mov.dst = true) :
    cellAt ((moveE g mov cc).2).layout mov.dst =
      some (if p.flags.contains 0 then { p with flags := [] } else p) := by
  have hsin : isInBounds g.size mov.src = true := by
    by_contra hne
    simp [getPieceE, hne] at hsrc
  have hval : cellAt g.layout mov.src = some p := by
    simp [getPieceE, hsin] at hsrc
    exact hsrc
  have hws : layoutSized g.size (setCell (setCell g.layout mov.src none) mov.dst (some p)) =
      true :=
    layoutSized_setCell _ _ _ _ (layoutSized_setCell _ _ _ _ hwf hsin) hdst
  cases cc
  · have e1 : setPieceLayoutE g mov.src none =
        (.ok (some p), { g with layout := setCell g.layout mov.src none }) := by
      simp [setPieceLayoutE, getPieceE, hsin, hval]
    have e2 : setPieceLayoutE { g with layout := setCell g.layout mov.src none }
        mov.dst (some p) =
        (.ok (cellAt (setCell g.layout mov.src none) mov.dst),
         { g with layout := setCell (setCell g.layout mov.src none) mov.dst (some p) }) := by
      simp [setPieceLayoutE, getPieceE, hdst]
    rw [moveE]
    simp only [Bool.false_eq_true, if_false, e1, e2]
    exact cellAt_setCell g.size _ mov.dst _ hws hdst
  · have e1 : setPieceLayoutE { g with cache := [] } mov.src none =
        (.ok (some p), { g with cache := [], layout := setCell g.layout mov.src none }) := by
      simp [setPieceLayoutE, getPieceE, hsin, hval]
    have e2 : setPieceLayoutE { g with cache := [], layout := setCell g.layout mov.src none }
        mov.dst (some p) =
        (.ok (cellAt (setCell g.layout mov.src none) mov.dst),
         { g with cache := [],
                  layout := setCell (setCell g.layout mov.src none) mov.dst (some p) }) := by
      simp [setPieceLayoutE, getPieceE, hdst]
    rw [moveE]
    simp only [if_true, e1, e2]
    exact cellAt_setCell g.size _ mov.dst _ hws hdst

theorem checkLoop_preserves (team : Int) :
    ∀ (moves : List Move) (g : GameState) (l : List Move) (g' : GameState),
      checkLoop team g moves = (.ok l, g') →
      ShapeEq g' g ∧ g'.cache = g.cache := by
  intro moves
  induction moves with
  | nil =>
      intro g l g' h
      rw [checkLoop] at h
      cases h
      exact ⟨ShapeEq.refl g, rfl⟩
  | cons m rest ih =>
      intro g l g' h
      rcases hp : putsKingInCheck g m team with ⟨r, ga⟩
      cases r with
      | error e =>
          rw [checkLoop] at h
          simp only [hp] at h
          simp at h
      | ok b =>
          obtain ⟨hsh, hca⟩ := pkic_preserves g m team b (by rw [hp])
          rw [hp] at hsh hca
          rcases hc : checkLoop team ga rest with ⟨rr, gb⟩
          cases rr with
          | error e =>
              rw [checkLoop] at h
              simp only [hp, hc] at h
              simp at h
          | ok ll =>
              rw [checkLoop] at h
              simp only [hp, hc] at h
              obtain ⟨hsh2, hca2⟩ := ih ga ll gb hc
              cases h
              exact ⟨hsh2.trans hsh, hca2.trans hca⟩

theorem getMoves_preserves (g : GameState) (pos : Vec) (kc : Bool) (L : List Move)
    (h : (getMoves g pos kc).1 = .ok L) :
    ((getMoves g pos kc).2).size = g.size ∧
      ((getMoves g pos kc).2).layout = g.layout ∧
      ((getMoves g pos kc).2).pieceDict = g.pieceDict ∧
      ((getMoves g pos kc).2).pois.map poiShape = g.pois.map poiShape := by
  rw [getMoves] at h ⊢
  rcases hp : getPieceE g.size g.layout pos with e | op
  · simp [hp] at h
  · cases op with
    | none => simp [hp]
    | some piece =>
        rcases hd : lookupDict g.pieceDict piece.id with _ | data
        · simp [hp, hd] at h
        · simp only [hp, hd]
          cases kc with
          | false =>
              rcases he : evalRoots (dictFuel g.pieceDict) g.size g.layout g.pieceDict piece pos
                  data.pathTree with e | moves
              · simp [he]
              · simp [he]
          | true =>
              rcases hl : lookupCache g.cache (Vec.serializeV pos) with _ | cached
              · simp only [hl]
                rcases he : evalRoots (dictFuel g.pieceDict) g.size g.layout g.pieceDict piece
                    pos data.pathTree with e | moves
                · simp [he]
                · simp only [he]
                  rcases hc : checkLoop piece.team g moves with ⟨rr, gb⟩
                  cases rr with
                  | error e =>
                      simp only [hp, hd, hl, he, hc] at h
                      simp at h
                  | ok l =>
                      obtain ⟨hsh, _⟩ := checkLoop_preserves piece.team moves g l gb hc
                      simp only [hc]
                      exact ⟨hsh.1, hsh.2.1, hsh.2.2.1, hsh.2.2.2⟩
              · simp [hl]

/-! ### The claims -/

/-- C1.  The claim says the occupancy index stays synchronized with the
board across `setPiece`/`move`, and in particular that `setPiece` with a
non-null piece removes the stale entry and (re)inserts an entry for the
new piece.  The code does not: for a non-null piece, `setPiece`
(part_001 lines 572-578) only calls `removePoi(pos)` and never inserts —
indeed its two branches both only remove.  This theorem evaluates the
embedded `setPiece` on the default game at the occupied square (0,1):
the prior pawn is returned, the knight sits in the board cell and is
seen by the full-board scan, yet the index is left with no entry at that
square at all, so the index/scan invariant is broken and the older
snapshot's behaviour (`setPiecePoi(pos, piece)`, part_000 line 481) is
what the claim describes. -/
theorem c1_setPiece_drops_index_entry :
    (setPieceE defaultGame ⟨0, 1, 0, 0⟩ (some ⟨"N", 0, []⟩)).1 =
        .ok (some ⟨"P", 0, [0]⟩) ∧
      cellAt ((setPieceE defaultGame ⟨0, 1, 0, 0⟩ (some ⟨"N", 0, []⟩)).2).layout
          ⟨0, 1, 0, 0⟩ = some ⟨"N", 0, []⟩ ∧
      ((scanPieces ((setPieceE defaultGame ⟨0, 1, 0, 0⟩ (some ⟨"N", 0, []⟩)).2)).contains
          (⟨0, 1, 0, 0⟩, ⟨"N", 0, []⟩)) = true ∧
      (((setPieceE defaultGame ⟨0, 1, 0, 0⟩ (some ⟨"N", 0, []⟩)).2).pois.all fun e =>
          !(e.pos = ⟨0, 1, 0, 0⟩)) = true := by
  decide

/-- C2.  For an in-bounds origin holding a piece with a dictionary
entry, when the origin is not in the move cache, the king-checked list
is exactly the unchecked list filtered by `putsKingInCheck` reporting
false (on the state the query started from: each legality simulation
restores everything a later simulation can observe, which is what
`checkLoop_filter` threads through the loop). -/
theorem c2_checked_is_filtered_unchecked (g : GameState) (pos : Vec) (piece : Piece)
    (data : PieceRule)
    (h1 : getPieceE g.size g.layout pos = .ok (some piece))
    (h2 : lookupDict g.pieceDict piece.id = some data)
    (h3 : lookupCache g.cache (Vec.serializeV pos) = none)
    (checked unchecked : List Move)
    (h4 : (getMoves g pos true).1 = .ok checked)
    (h5 : (getMoves g pos false).1 = .ok unchecked) :
    checked = unchecked.filter fun m =>
      decide ((putsKingInCheck g m piece.team).1 = .ok false) := by
  rw [getMoves] at h4 h5
  simp only [h1, h2, h3] at h4 h5
  split at h5
  · simp at h5
  · rename_i moves he
    simp at h5
    simp [he] at h4
    split at h4
    · rename_i e g1 hc
      simp at h4
    · rename_i l g1 hc
      simp at h4
      rw [← h4, ← h5]
      exact checkLoop_filter piece.team g moves g (ShapeEq.refl g) l (by rw [hc])

set_option maxRecDepth 1000000 in
set_option maxHeartbeats 8000000 in
/-- Witness for C2 at the default game's queen-side knight. -/
theorem c2_witness :
    (getMoves defaultGame ⟨1, 0, 0, 0⟩ true).1 =
        .ok [Move.make ⟨1, 0, 0, 0⟩ ⟨2, 2, 0, 0⟩, Move.make ⟨1, 0, 0, 0⟩ ⟨0, 2, 0, 0⟩] ∧
      [Move.make ⟨1, 0, 0, 0⟩ ⟨2, 2, 0, 0⟩, Move.make ⟨1, 0, 0, 0⟩ ⟨0, 2, 0, 0⟩] =
        ([Move.make ⟨1, 0, 0, 0⟩ ⟨2, 2, 0, 0⟩,
          Move.make ⟨1, 0, 0, 0⟩ ⟨0, 2, 0, 0⟩].filter fun m =>
            decide ((putsKingInCheck defaultGame m (0 : Int)).1 = .ok false)) := by
  have h4 : (getMoves defaultGame ⟨1, 0, 0, 0⟩ true).1 =
      .ok [Move.make ⟨1, 0, 0, 0⟩ ⟨2, 2, 0, 0⟩, Move.make ⟨1, 0, 0, 0⟩ ⟨0, 2, 0, 0⟩] := by
    decide
  have h5 : (getMoves defaultGame ⟨1, 0, 0, 0⟩ false).1 =
      .ok [Move.make ⟨1, 0, 0, 0⟩ ⟨2, 2, 0, 0⟩, Move.make ⟨1, 0, 0, 0⟩ ⟨0, 2, 0, 0⟩] := by
    decide
  refine ⟨h4, ?_⟩
  exact c2_checked_is_filtered_unchecked defaultGame ⟨1, 0, 0, 0⟩ ⟨"N", 0, []⟩ knightRule
    (by decide) rfl rfl _ _ h4 h5

set_option maxRecDepth 1000000 in
set_option maxHeartbeats 8000000 in
/-- Counterexample for C3.  First conjunct: on a 2×2 board where the
opponent owns a piece whose id has no rule entry, `putsKingInCheck`
raises `MissingRuleError` while generating the opponent's replies, and
the state it leaves behind has the moved pawn's source square empty —
there is no `try`/`finally`, so nothing is restored when a later step
raises.  Second conjunct: even on the success path, the restored
occupancy index is not exactly the pre-call index — the entry whose
piece object was the simulated mover (a flag-0 pawn) has had its flag
list emptied through the shared object. -/
theorem c3_counterexample :
    ((putsKingInCheck (mkGame "2,2,1,1 Px,2" []) (Move.make ⟨0, 0, 0, 0⟩ ⟨0, 1, 0, 0⟩) 0).1 =
        .error (missingRuleMsg "X") ∧
      cellAt ((putsKingInCheck (mkGame "2,2,1,1 Px,2" [])
          (Move.make ⟨0, 0, 0, 0⟩ ⟨0, 1, 0, 0⟩) 0).2).layout ⟨0, 0, 0, 0⟩ = none ∧
      cellAt (mkGame "2,2,1,1 Px,2" []).layout ⟨0, 0, 0, 0⟩ = some ⟨"P", 0, [0]⟩) ∧
    ((putsKingInCheck defaultGame (Move.make ⟨0, 1, 0, 0⟩ ⟨0, 2, 0, 0⟩) 0).1 = .ok false ∧
      ((putsKingInCheck defaultGame (Move.make ⟨0, 1, 0, 0⟩ ⟨0, 2, 0, 0⟩) 0).2).pois ≠
        defaultGame.pois) := by
  decide

/-- C3, amended.  When `putsKingInCheck` returns normally it restores
the board layout exactly (from the deep clone), leaves the move cache
untouched, and restores the occupancy index up to the flag lists of its
entries (order, positions, ids and teams are exactly the pre-call ones);
the flag list of an entry aliasing a moved flag-0 piece is cleared, and
when a later step of the simulation raises, no restoration happens at
all and the caller observes the mid-simulation board (see the
counterexample). -/
theorem c3_success_restores_board_and_index_shape (g : GameState) (mov : Move) (team : Int)
    (b : Bool) (h : (putsKingInCheck g mov team).1 = .ok b) :
    ((putsKingInCheck g mov team).2).layout = g.layout ∧
      ((putsKingInCheck g mov team).2).cache = g.cache ∧
      ((putsKingInCheck g mov team).2).pois.map poiShape = g.pois.map poiShape := by
  obtain ⟨hsh, hca⟩ := pkic_preserves g mov team b h
  exact ⟨hsh.2.1, hca, hsh.2.2.2⟩

set_option maxRecDepth 1000000 in
set_option maxHeartbeats 8000000 in
/-- Witness for C3 (amended) at the default game's a-pawn single push. -/
theorem c3_witness :
    (putsKingInCheck defaultGame (Move.make ⟨0, 1, 0, 0⟩ ⟨0, 2, 0, 0⟩) 0).1 = .ok false ∧
      ((putsKingInCheck defaultGame (Move.make ⟨0, 1, 0, 0⟩ ⟨0, 2, 0, 0⟩) 0).2).layout =
        defaultGame.layout ∧
      ((putsKingInCheck defaultGame (Move.make ⟨0, 1, 0, 0⟩ ⟨0, 2, 0, 0⟩) 0).2).pois.map
          poiShape = defaultGame.pois.map poiShape := by
  have h : (putsKingInCheck defaultGame (Move.make ⟨0, 1, 0, 0⟩ ⟨0, 2, 0, 0⟩) 0).1 =
      .ok false := by decide
  obtain ⟨h1, _, h3⟩ :=
    c3_success_restores_board_and_index_shape defaultGame
      (Move.make ⟨0, 1, 0, 0⟩ ⟨0, 2, 0, 0⟩) 0 false h
  exact ⟨h, h1, h3⟩

/-- C4.  The claim (and the older snapshot, part_000 lines 600-621) says
an enemy-occupied cell records a capture only while the count of
captures is below the attack allowance and then always stops the ray, so
an allowance of 0 never records a capture.  The current snapshot
(part_001 lines 715-727) increments the count and records the move
before comparing, and stops only when the count equals the allowance —
so with allowance 0 a pawn's non-capturing forward push (`attack: 0`)
happily captures straight ahead, and a sliding allowance-0 ray captures
every enemy it meets and walks right through them.  Both behaviours are
evaluated here on concrete boards. -/
theorem c4_attack_zero_still_captures :
    (cellAt (mkGame "1,3,1,1 P,p,1" []).layout ⟨0, 1, 0, 0⟩ = some ⟨"P", 1, [0]⟩ ∧
      getMovesNC (mkGame "1,3,1,1 P,p,1" []).size (mkGame "1,3,1,1 P,p,1" []).layout
          (mkGame "1,3,1,1 P,p,1" []).pieceDict ⟨0, 0, 0, 0⟩ =
        .ok [Move.make ⟨0, 0, 0, 0⟩ ⟨0, 1, 0, 0⟩]) ∧
    getMovesNC
        (mkGame "1,4,1,1 S,s,s,1"
          [("S", ⟨[Path.mk (some .inf) none (some 0) (some ⟨0, 1, 0, 0⟩) none]⟩)]).size
        (mkGame "1,4,1,1 S,s,s,1"
          [("S", ⟨[Path.mk (some .inf) none (some 0) (some ⟨0, 1, 0, 0⟩) none]⟩)]).layout
        (mkGame "1,4,1,1 S,s,s,1"
          [("S", ⟨[Path.mk (some .inf) none (some 0) (some ⟨0, 1, 0, 0⟩) none]⟩)]).pieceDict
        ⟨0, 0, 0, 0⟩ =
      .ok [Move.make ⟨0, 0, 0, 0⟩ ⟨0, 1, 0, 0⟩, Move.make ⟨0, 0, 0, 0⟩ ⟨0, 2, 0, 0⟩,
        Move.make ⟨0, 0, 0, 0⟩ ⟨0, 3, 0, 0⟩] := by
  decide

set_option maxRecDepth 100000 in
/-- Counterexample for C5.  A custom branch node
`[{dir (1,0)}, "X", {dir (-1,0)}]` evaluated for a piece of type `X`
standing free in the middle of an empty 3×3 board yields no moves at
all, although its first branch alone yields the move to the right (shown
by the same dictionary without the self reference): the self-named
string branch did not merely contribute zero moves, it discarded the
earlier branch's move and skipped the later branch. -/
theorem c5_counterexample :
    getMovesNC
        (mkGame "3,3,1,1 3,1x1,3"
          [("X", ⟨[Path.mk (some (.fin 1)) none (some 1) none
            (some [.inr (dirPath 1 0 0 0), .inl "X", .inr (dirPath (-1) 0 0 0)])]⟩)]).size
        (mkGame "3,3,1,1 3,1x1,3"
          [("X", ⟨[Path.mk (some (.fin 1)) none (some 1) none
            (some [.inr (dirPath 1 0 0 0), .inl "X", .inr (dirPath (-1) 0 0 0)])]⟩)]).layout
        (mkGame "3,3,1,1 3,1x1,3"
          [("X", ⟨[Path.mk (some (.fin 1)) none (some 1) none
            (some [.inr (dirPath 1 0 0 0), .inl "X", .inr (dirPath (-1) 0 0 0)])]⟩)]).pieceDict
        ⟨1, 1, 0, 0⟩ = .ok [] ∧
    getMovesNC
        (mkGame "3,3,1,1 3,1x1,3"
          [("X", ⟨[Path.mk (some (.fin 1)) none (some 1) none
            (some [.inr (dirPath 1 0 0 0)])]⟩)]).size
        (mkGame "3,3,1,1 3,1x1,3"
          [("X", ⟨[Path.mk (some (.fin 1)) none (some 1) none
            (some [.inr (dirPath 1 0 0 0)])]⟩)]).layout
        (mkGame "3,3,1,1 3,1x1,3"
          [("X", ⟨[Path.mk (some (.fin 1)) none (some 1) none
            (some [.inr (dirPath 1 0 0 0)])]⟩)]).pieceDict
        ⟨1, 1, 0, 0⟩ = .ok [Move.make ⟨1, 1, 0, 0⟩ ⟨2, 1, 0, 0⟩] := by
  decide

set_option maxRecDepth 100000 in
/-- Witness for C5 (amended) on the counterexample's dictionary. -/
theorem c5_witness :
    evalGo (⟨3, 3, 1, 1⟩ : Vec)
        (mkGame "3,3,1,1 3,1x1,3"
          [("X", ⟨[Path.mk (some (.fin 1)) none (some 1) none
            (some [.inr (dirPath 1 0 0 0), .inl "X", .inr (dirPath (-1) 0 0 0)])]⟩)]).layout
        (mkGame "3,3,1,1 3,1x1,3"
          [("X", ⟨[Path.mk (some (.fin 1)) none (some 1) none
            (some [.inr (dirPath 1 0 0 0), .inl "X", .inr (dirPath (-1) 0 0 0)])]⟩)]).pieceDict
        ⟨"X", 1, []⟩ ⟨1, 1, 0, 0⟩ 10
        (.branches (some (.fin 1)) (some 1) [] [.inr (dirPath 1 0 0 0)]) =
      .ok [Move.make ⟨1, 1, 0, 0⟩ ⟨2, 1, 0, 0⟩] ∧
    evalGo (⟨3, 3, 1, 1⟩ : Vec)
        (mkGame "3,3,1,1 3,1x1,3"
          [("X", ⟨[Path.mk (some (.fin 1)) none (some 1) none
            (some [.inr (dirPath 1 0 0 0), .inl "X", .inr (dirPath (-1) 0 0 0)])]⟩)]).layout
        (mkGame "3,3,1,1 3,1x1,3"
          [("X", ⟨[Path.mk (some (.fin 1)) none (some 1) none
            (some [.inr (dirPath 1 0 0 0), .inl "X", .inr (dirPath (-1) 0 0 0)])]⟩)]).pieceDict
        ⟨"X", 1, []⟩ ⟨1, 1, 0, 0⟩ 10
        (.branches (some (.fin 1)) (some 1) []
          ([.inr (dirPath 1 0 0 0)] ++ .inl "X" :: [.inr (dirPath (-1) 0 0 0)])) =
      .ok [] := by
  have h : evalGo (⟨3, 3, 1, 1⟩ : Vec)
      (mkGame "3,3,1,1 3,1x1,3"
        [("X", ⟨[Path.mk (some (.fin 1)) none (some 1) none
          (some [.inr (dirPath 1 0 0 0), .inl "X", .inr (dirPath (-1) 0 0 0)])]⟩)]).layout
      (mkGame "3,3,1,1 3,1x1,3"
        [("X", ⟨[Path.mk (some (.fin 1)) none (some 1) none
          (some [.inr (dirPath 1 0 0 0), .inl "X", .inr (dirPath (-1) 0 0 0)])]⟩)]).pieceDict
      ⟨"X", 1, []⟩ ⟨1, 1, 0, 0⟩ 10
      (.branches (some (.fin 1)) (some 1) [] [.inr (dirPath 1 0 0 0)]) =
      .ok [Move.make ⟨1, 1, 0, 0⟩ ⟨2, 1, 0, 0⟩] := by decide
  exact ⟨h, evalGo_self_branch_discards _ _ _ _ _ _ _ _ _ _ _ _ h⟩

set_option maxRecDepth 1000000 in
set_option maxHeartbeats 8000000 in
/-- Counterexample for C6.  `moveIfValid` on an illegal pawn move from
the default start reports failure without raising — but the occupancy
index is not left identical: validating ran the legality filter, whose
simulation cleared the flag list of the origin's index entry through the
shared piece object (the pre-move board cells are restored exactly, the
index entry's flags are not). -/
theorem c6_counterexample :
    (moveIfValid defaultGame (Move.make ⟨0, 1, 0, 0⟩ ⟨0, 5, 0, 0⟩)).1 = .ok .invalid ∧
      ((moveIfValid defaultGame (Move.make ⟨0, 1, 0, 0⟩ ⟨0, 5, 0, 0⟩)).2).layout =
        defaultGame.layout ∧
      ((moveIfValid defaultGame (Move.make ⟨0, 1, 0, 0⟩ ⟨0, 5, 0, 0⟩)).2).pois ≠
        defaultGame.pois := by
  decide

/-- C6, amended.  When the king-checked list of the move's source square
contains no move with the same source and destination, `moveIfValid`
returns the failure marker without raising and performs no board
mutation: the layout is identical, and the occupancy index is identical
in order, positions, ids and teams — only the flag lists of index
entries may have changed (and the move cache may have gained the
origin's entry), as the counterexample shows actually happens. -/
theorem c6_invalid_move_preserves_board (g : GameState) (mov : Move) (L : List Move)
    (h1 : (getMoves g mov.src true).1 = .ok L)
    (h2 : (L.any fun a => a.src = mov.src && a.dst = mov.dst) = false) :
    (moveIfValid g mov).1 = .ok .invalid ∧
      ((moveIfValid g mov).2).layout = g.layout ∧
      ((moveIfValid g mov).2).pois.map poiShape = g.pois.map poiShape := by
  have hpres := getMoves_preserves g mov.src true L h1
  rcases hg : getMoves g mov.src true with ⟨r, g'⟩
  rw [hg] at h1 hpres
  simp only [] at h1 hpres
  subst h1
  rw [moveIfValid, isValidMove]
  simp only [hg, h2]
  exact ⟨trivial, hpres.2.1, hpres.2.2.2⟩

set_option maxRecDepth 1000000 in
set_option maxHeartbeats 8000000 in
/-- Witness for C6 (amended): the illegal pawn move of the
counterexample. -/
theorem c6_witness :
    (getMoves defaultGame ⟨0, 1, 0, 0⟩ true).1 =
        .ok [Move.make ⟨0, 1, 0, 0⟩ ⟨0, 2, 0, 0⟩, Move.make ⟨0, 1, 0, 0⟩ ⟨0, 3, 0, 0⟩] ∧
      (moveIfValid defaultGame (Move.make ⟨0, 1, 0, 0⟩ ⟨0, 5, 0, 0⟩)).1 = .ok .invalid ∧
      ((moveIfValid defaultGame (Move.make ⟨0, 1, 0, 0⟩ ⟨0, 5, 0, 0⟩)).2).layout =
        defaultGame.layout := by
  have h1 : (getMoves defaultGame (Move.make ⟨0, 1, 0, 0⟩ ⟨0, 5, 0, 0⟩).src true).1 =
      .ok [Move.make ⟨0, 1, 0, 0⟩ ⟨0, 2, 0, 0⟩, Move.make ⟨0, 1, 0, 0⟩ ⟨0, 3, 0, 0⟩] := by
    decide
  obtain ⟨ha, hb, _⟩ :=
    c6_invalid_move_preserves_board defaultGame (Move.make ⟨0, 1, 0, 0⟩ ⟨0, 5, 0, 0⟩)
      [Move.make ⟨0, 1, 0, 0⟩ ⟨0, 2, 0, 0⟩, Move.make ⟨0, 1, 0, 0⟩ ⟨0, 3, 0, 0⟩]
      h1 (by decide)
  exact ⟨h1, ha, hb⟩

/-- C7.  Constructing a game from a layout containing a letter with no
rule-dictionary entry succeeds — the piece is placed on the board and
indexed, nothing is checked at parse time (the constructor never
consults the dictionary, and in the embedding it is a total function) —
and `getMoves` raises `MissingRuleError` whenever it is issued for a
square holding a piece whose id has no dictionary entry, for either
value of `kingCheck` (the check precedes the cache lookup), leaving the
state untouched. -/
theorem c7_missing_rule_is_lazy :
    (cellAt (mkGame "2,2,1,1 Px,2" []).layout ⟨1, 0, 0, 0⟩ = some ⟨"X", 1, []⟩ ∧
      ((mkGame "2,2,1,1 Px,2" []).pois.contains
        (⟨⟨"X", 1, []⟩, ⟨1, 0, 0, 0⟩, true⟩ : PoiEntry)) = true) ∧
    ∀ (g : GameState) (pos : Vec) (piece : Piece),
      getPieceE g.size g.layout pos = .ok (some piece) →
      lookupDict g.pieceDict piece.id = none →
      ∀ kc : Bool, getMoves g pos kc = (.error (missingRuleMsg piece.id), g) := by
  constructor
  · constructor <;> decide
  · intro g pos piece h1 h2 kc
    rw [getMoves]
    simp [h1, h2]

/-- Witness for C7's lazy-failure part at the unknown-id square. -/
theorem c7_witness :
    getPieceE (mkGame "2,2,1,1 Px,2" []).size (mkGame "2,2,1,1 Px,2" []).layout
        ⟨1, 0, 0, 0⟩ = .ok (some ⟨"X", 1, []⟩) ∧
      (getMoves (mkGame "2,2,1,1 Px,2" []) ⟨1, 0, 0, 0⟩ true).1 =
        .error (missingRuleMsg "X") ∧
      (getMoves (mkGame "2,2,1,1 Px,2" []) ⟨1, 0, 0, 0⟩ false).1 =
        .error (missingRuleMsg "X") := by
  have h1 : getPieceE (mkGame "2,2,1,1 Px,2" []).size (mkGame "2,2,1,1 Px,2" []).layout
      ⟨1, 0, 0, 0⟩ = .ok (some ⟨"X", 1, []⟩) := by decide
  have h2 : lookupDict (mkGame "2,2,1,1 Px,2" []).pieceDict "X" = none := rfl
  have hg := c7_missing_rule_is_lazy.2 (mkGame "2,2,1,1 Px,2" []) ⟨1, 0, 0, 0⟩
    ⟨"X", 1, []⟩ h1 h2
  exact ⟨h1, by rw [hg true], by rw [hg false]⟩

set_option maxRecDepth 4000000 in
set_option maxHeartbeats 64000000 in
/-- C8.  From the default start, applying the legal pawn move
(0,1) → (0,2) through `moveIfValid` yields a king-checked
`getMovesForTeam 0` of length 19; the query leaves a cache entry for
every queried origin (shown for the b1 knight), and repeating the query
on the resulting state returns the same list (answered from the
per-origin cache: no mutation happened in between to clear it). -/
theorem c8_nineteen_moves_and_cache_stability :
    (let mv := moveIfValid defaultGame (Move.make ⟨0, 1, 0, 0⟩ ⟨0, 2, 0, 0⟩)
     let r1 := getMovesForTeam mv.2 0 true
     mv.1 = .ok (.moved none) ∧
       r1.1.map List.length = .ok 19 ∧
       (lookupCache r1.2.cache (Vec.serializeV ⟨1, 0, 0, 0⟩)).isSome = true ∧
       (getMovesForTeam r1.2 0 true).1 = r1.1) := by
  decide

set_option maxRecDepth 1000000 in
set_option maxHeartbeats 16000000 in
/-- Counterexample for C9.  On the default starting position — before
any move is applied — the knight at (1,0) has two legal king-checked
moves, to (2,2) and to (0,2) (the source generates both one-step jumps
(1,2) and (−1,2), both destinations are empty and neither endangers the
king), so the claimed "exactly 1 legal move" is false; the single-move
situation in the repository's test arises only after the pawn move
a2–a3 blocks (0,2). -/
theorem c9_counterexample :
    (getMoves defaultGame ⟨1, 0, 0, 0⟩ true).1 =
        .ok [Move.make ⟨1, 0, 0, 0⟩ ⟨2, 2, 0, 0⟩, Move.make ⟨1, 0, 0, 0⟩ ⟨0, 2, 0, 0⟩] ∧
      ¬∃ m : Move, (getMoves defaultGame ⟨1, 0, 0, 0⟩ true).1 = .ok [m] := by
  have h : (getMoves defaultGame ⟨1, 0, 0, 0⟩ true).1 =
      .ok [Move.make ⟨1, 0, 0, 0⟩ ⟨2, 2, 0, 0⟩, Move.make ⟨1, 0, 0, 0⟩ ⟨0, 2, 0, 0⟩] := by
    decide
  refine ⟨h, ?_⟩
  rintro ⟨m, hm⟩
  rw [h] at hm
  simp at hm

set_option maxRecDepth 1000000 in
set_option maxHeartbeats 32000000 in
/-- C9, amended.  On the default starting position the knight at (1,0)
has exactly 2 legal king-checked moves, to (2,2) and to (0,2);
`isValidMove` accepts (1,0) → (2,2) and rejects (1,0) → (3,3). -/
theorem c9_default_knight_two_moves :
    (getMoves defaultGame ⟨1, 0, 0, 0⟩ true).1 =
        .ok [Move.make ⟨1, 0, 0, 0⟩ ⟨2, 2, 0, 0⟩, Move.make ⟨1, 0, 0, 0⟩ ⟨0, 2, 0, 0⟩] ∧
      (isValidMove defaultGame (Move.make ⟨1, 0, 0, 0⟩ ⟨2, 2, 0, 0⟩) true).1 = .ok true ∧
      (isValidMove defaultGame (Move.make ⟨1, 0, 0, 0⟩ ⟨3, 3, 0, 0⟩) true).1 = .ok false := by
  decide

/-- Witness for C10: a king move keeps flags `[1, 2]`; a piece carrying
flags `[0, 7]` loses both when moved. -/
theorem c10_witness :
    (layoutSized defaultGame.size defaultGame.layout = true ∧
      getPieceE defaultGame.size defaultGame.layout ⟨4, 0, 0, 0⟩ =
        .ok (some ⟨"K", 0, [1, 2]⟩) ∧
      isInBounds defaultGame.size ⟨4, 3, 0, 0⟩ = true ∧
      cellAt ((moveE defaultGame (Move.make ⟨4, 0, 0, 0⟩ ⟨4, 3, 0, 0⟩) true).2).layout
          ⟨4, 3, 0, 0⟩ = some ⟨"K", 0, [1, 2]⟩) ∧
    cellAt ((moveE
        { size := ⟨1, 2, 1, 1⟩,
          layout := [[[[some ⟨"P", 0, [0, 7]⟩], [none]]]],
          pois := [⟨⟨"P", 0, [0, 7]⟩, ⟨0, 0, 0, 0⟩, true⟩],
          pieceDict := defaultDict, cache := [] }
        (Move.make ⟨0, 0, 0, 0⟩ ⟨0, 1, 0, 0⟩) true).2).layout ⟨0, 1, 0, 0⟩ =
      some ⟨"P", 0, []⟩ := by
  constructor
  · refine ⟨by decide, by decide, by decide, ?_⟩
    exact c10_move_flag_reassignment defaultGame (Move.make ⟨4, 0, 0, 0⟩ ⟨4, 3, 0, 0⟩) true ⟨"K", 0, [1, 2]⟩
      (by decide) (by decide) (by decide)
  · exact c10_move_flag_reassignment
      { size := ⟨1, 2, 1, 1⟩,
        layout := [[[[some ⟨"P", 0, [0, 7]⟩], [none]]]],
        pois := [⟨⟨"P", 0, [0, 7]⟩, ⟨0, 0, 0, 0⟩, true⟩],
        pieceDict := defaultDict, cache := [] }
      (Move.make ⟨0, 0, 0, 0⟩ ⟨0, 1, 0, 0⟩) true ⟨"P", 0, [0, 7]⟩
      (by decide) (by decide) (by decide)
